import Mathlib

/-!
# Talktrace secure meeting-artifact pipeline: a verification development

A shallow embedding, in Lean 4, of the security- and data-model-relevant parts
of the Talktrace backend (Node.js): the crypto utilities (SHA-256 content
hashes, AES-GCM key wrapping, hex packing of wrapped-key blobs), the CBC
envelope used for at-rest storage and per-request delivery, the SQLite-backed
metadata store (meetings, meeting_keys, transcript_revisions), and the HTTP
handlers (`/api/status`, secure delivery, `/api/edit`, `/api/revert`,
checkout).

Bytes are modelled as `List Nat` with values below 256.  Library crypto
primitives that the code calls (`crypto.createCipheriv` block permutations,
RSA-OAEP, AES-GCM) are abstracted as function parameters subject to the
inverse laws the library guarantees; the mode-of-operation logic (CBC
chaining, PKCS#7 padding, GCM tag check, the `iv:ciphertext` hex packing, the
envelope layout) is implemented concretely, following the source.
-/

set_option maxRecDepth 4000

namespace Talktrace

/-- Bytes: natural numbers, meaningful below 256. -/
abbrev Bytes := List Nat

/-! ## Generic helpers: fixed-size chunking -/

/-- Fuel-driven chunking (structural recursion so that the kernel can
evaluate it): split `l` into consecutive pieces of `n` elements. -/
def chunksOfAux (n : Nat) : Nat → List α → List (List α)
  | 0, _ => []
  | _ + 1, [] => []
  | fuel + 1, a :: l => ((a :: l).take n) :: chunksOfAux n fuel ((a :: l).drop n)

/-- Split a list into consecutive pieces of `n` elements (last may be short). -/
def chunksOf (n : Nat) (l : List α) : List (List α) :=
  chunksOfAux n l.length l

theorem chunksOfAux_flatten (n : Nat) (hn : 0 < n) :
    ∀ (fuel : Nat) (l : List α), l.length ≤ fuel → (chunksOfAux n fuel l).flatten = l := by
  intro fuel
  induction fuel with
  | zero =>
    intro l hl
    simp only [Nat.le_zero, List.length_eq_zero] at hl
    simp [hl, chunksOfAux]
  | succ fuel ih =>
    intro l hl
    match l with
    | [] => simp [chunksOfAux]
    | a :: l =>
      simp only [chunksOfAux, List.flatten_cons]
      rw [ih ((a :: l).drop n)]
      · exact List.take_append_drop n (a :: l)
      · rw [List.length_drop]
        simp only [List.length_cons] at hl ⊢
        omega

theorem chunksOf_flatten (n : Nat) (hn : 0 < n) (l : List α) :
    (chunksOf n l).flatten = l :=
  chunksOfAux_flatten n hn l.length l le_rfl

theorem chunksOfAux_length_mem (n : Nat) (hn : 0 < n) :
    ∀ (fuel : Nat) (l : List α), l.length ≤ fuel → n ∣ l.length →
      ∀ b ∈ chunksOfAux n fuel l, b.length = n := by
  intro fuel
  induction fuel with
  | zero =>
    intro l hl _ b hb
    simp only [Nat.le_zero, List.length_eq_zero] at hl
    subst hl
    simp [chunksOfAux] at hb
  | succ fuel ih =>
    intro l hl hdvd b hb
    match l with
    | [] => simp [chunksOfAux] at hb
    | a :: l =>
      have hpos : 0 < (a :: l).length := by simp
      have hge : n ≤ (a :: l).length := Nat.le_of_dvd hpos hdvd
      simp only [chunksOfAux, List.mem_cons] at hb
      rcases hb with hb | hb
      · subst hb
        simp only [List.length_take, List.length_cons]
        simp only [List.length_cons] at hge
        omega
      · refine ih ((a :: l).drop n) ?_ ?_ b hb
        · rw [List.length_drop]
          simp only [List.length_cons] at hl ⊢
          omega
        · rw [List.length_drop]
          exact (Nat.dvd_sub' hdvd dvd_rfl)

theorem chunksOf_length_mem (n : Nat) (hn : 0 < n) (l : List α) (hdvd : n ∣ l.length) :
    ∀ b ∈ chunksOf n l, b.length = n :=
  chunksOfAux_length_mem n hn l.length l le_rfl hdvd

theorem chunksOfAux_flatten_blocks (n : Nat) (hn : 0 < n) :
    ∀ (bs : List (List α)) (fuel : Nat), bs.flatten.length ≤ fuel →
      (∀ b ∈ bs, b.length = n) → chunksOfAux n fuel bs.flatten = bs := by
  intro bs
  induction bs with
  | nil =>
    intro fuel _ _
    cases fuel <;> simp [chunksOfAux]
  | cons b bs ih =>
    intro fuel hfuel hlen
    have hb : b.length = n := hlen b (by simp)
    have hbs : ∀ x ∈ bs, x.length = n := fun x hx => hlen x (by simp [hx])
    have hjoin : (b :: bs).flatten = b ++ bs.flatten := by simp
    have hpos : 0 < (b :: bs).flatten.length := by
      rw [hjoin]
      simp only [List.length_append]
      omega
    match fuel with
    | 0 => omega
    | fuel + 1 =>
      have hne : (b :: bs).flatten ≠ [] := by
        intro h
        rw [h] at hpos
        simp at hpos
      match hjl : (b :: bs).flatten with
      | [] => exact absurd hjl hne
      | a :: t =>
        simp only [chunksOfAux]
        rw [← hjl, hjoin]
        have htake : (b ++ bs.flatten).take n = b := by
          rw [← hb]
          exact List.take_left b bs.flatten
        have hdrop : (b ++ bs.flatten).drop n = bs.flatten := by
          rw [← hb]
          exact List.drop_left b bs.flatten
        rw [htake, hdrop, ih fuel ?_ hbs]
        have : (a :: t).length ≤ fuel + 1 := by rw [← hjl]; exact hfuel
        have hlen2 : (b ++ bs.flatten).length = n + bs.flatten.length := by
          simp [hb]
        have : (b :: bs).flatten.length ≤ fuel + 1 := hfuel
        rw [hjoin, hlen2] at this
        omega

theorem chunksOf_flatten_blocks (n : Nat) (hn : 0 < n) (bs : List (List α))
    (hlen : ∀ b ∈ bs, b.length = n) : chunksOf n bs.flatten = bs :=
  chunksOfAux_flatten_blocks n hn bs bs.flatten.length le_rfl hlen

/-! ## Hex encoding (node `Buffer.toString('hex')` / `Buffer.from(hex, 'hex')`) -/

/-- Lower-case hex digit for a value below 16, as node emits. -/
def hexDigit (n : Nat) : Char :=
  if n < 10 then Char.ofNat (48 + n) else Char.ofNat (87 + n)

/-- Hex-encode a byte (two lower-case digits). -/
def hexByte (b : Nat) : List Char :=
  [hexDigit (b / 16), hexDigit (b % 16)]

/-- Hex-encode a byte string. -/
def hexEnc (l : Bytes) : List Char :=
  l.flatMap hexByte

/-- Decode one hex digit (node accepts both cases). -/
def hexDigitVal (c : Char) : Option Nat :=
  let t := c.toNat
  if 48 ≤ t ∧ t ≤ 57 then some (t - 48)
  else if 97 ≤ t ∧ t ≤ 102 then some (t - 87)
  else if 65 ≤ t ∧ t ≤ 70 then some (t - 55)
  else none

/-- Decode a hex string into bytes; `none` on a malformed string. -/
def hexDec : List Char → Option Bytes
  | [] => some []
  | [_] => none
  | c1 :: c2 :: rest =>
    match hexDigitVal c1, hexDigitVal c2, hexDec rest with
    | some h, some lo, some bs => some ((h * 16 + lo) :: bs)
    | _, _, _ => none

theorem hexDigitVal_hexDigit (n : Nat) (h : n < 16) :
    hexDigitVal (hexDigit n) = some n := by
  revert n
  decide

theorem hexDec_hexEnc (l : Bytes) (h : ∀ b ∈ l, b < 256) :
    hexDec (hexEnc l) = some l := by
  induction l with
  | nil => rfl
  | cons b l ih =>
    have hb : b < 256 := h b (by simp)
    have hrest : ∀ x ∈ l, x < 256 := fun x hx => h x (by simp [hx])
    have hhi : b / 16 < 16 := by omega
    have hlo : b % 16 < 16 := Nat.mod_lt _ (by omega)
    simp only [hexEnc, List.flatMap_cons, hexByte, List.cons_append, List.nil_append]
    simp only [hexDec, hexDigitVal_hexDigit _ hhi, hexDigitVal_hexDigit _ hlo]
    have hrec := ih hrest
    simp only [hexEnc] at hrec
    rw [hrec]
    have : b / 16 * 16 + b % 16 = b := by omega
    simp [this]

theorem hexDigit_ne_colon (n : Nat) (h : n < 16) : hexDigit n ≠ ':' := by
  revert n
  decide

theorem hexEnc_no_colon (l : Bytes) (hB : ∀ b ∈ l, b < 256) : ∀ c ∈ hexEnc l, c ≠ ':' := by
  induction l with
  | nil => simp [hexEnc]
  | cons b l ih =>
    intro c hc
    have hb : b < 256 := hB b (by simp)
    have hrest : ∀ x ∈ l, x < 256 := fun x hx => hB x (by simp [hx])
    simp only [hexEnc, List.flatMap_cons, hexByte, List.cons_append, List.nil_append,
      List.mem_cons] at hc
    rcases hc with h | h | h
    · subst h
      exact hexDigit_ne_colon _ (by omega)
    · subst h
      exact hexDigit_ne_colon _ (Nat.mod_lt _ (by omega))
    · exact ih hrest c h

/-! ## SHA-256 (the `crypto.createHash('sha256')` behind `calculateHash`) -/

/-- Addition truncated to 32 bits. -/
def add32 (a b : Nat) : Nat := (a + b) % 4294967296

/-- Rotate a 32-bit word right by `k`. -/
def rotr (k n : Nat) : Nat := ((n >>> k) ||| (n <<< (32 - k))) % 4294967296

/-- Logical shift right. -/
def shr (k n : Nat) : Nat := n >>> k

def bigSigma0 (x : Nat) : Nat := rotr 2 x ^^^ rotr 13 x ^^^ rotr 22 x
def bigSigma1 (x : Nat) : Nat := rotr 6 x ^^^ rotr 11 x ^^^ rotr 25 x
def smallSigma0 (x : Nat) : Nat := rotr 7 x ^^^ rotr 18 x ^^^ shr 3 x
def smallSigma1 (x : Nat) : Nat := rotr 17 x ^^^ rotr 19 x ^^^ shr 10 x
def chFn (x y z : Nat) : Nat := (x &&& y) ^^^ ((4294967295 ^^^ x) &&& z)
def majFn (x y z : Nat) : Nat := (x &&& y) ^^^ (x &&& z) ^^^ (y &&& z)

/-- SHA-256 round constants (fractional parts of cube roots of the first
64 primes), in decimal. -/
def shaK : List Nat :=
  [1116352408, 1899447441, 3049323471, 3921009573, 961987163, 1508970993,
   2453635748, 2870763221, 3624381080, 310598401, 607225278, 1426881987,
   1925078388, 2162078206, 2614888103, 3248222580, 3835390401, 4022224774,
   264347078, 604807628, 770255983, 1249150122, 1555081692, 1996064986,
   2554220882, 2821834349, 2952996808, 3210313671, 3336571891, 3584528711,
   113926993, 338241895, 666307205, 773529912, 1294757372, 1396182291,
   1695183700, 1986661051, 2177026350, 2456956037, 2730485921, 2820302411,
   3259730800, 3345764771, 3516065817, 3600352804, 4094571909, 275423344,
   430227734, 506948616, 659060556, 883997877, 958139571, 1322822218,
   1537002063, 1747873779, 1955562222, 2024104815, 2227730452, 2361852424,
   2428436474, 2756734187, 3204031479, 3329325298]

/-- SHA-256 initial hash value, in decimal. -/
def shaH0 : List Nat :=
  [1779033703, 3144134277, 1013904242, 2773480762,
   1359893119, 2600822924, 528734635, 1541459225]

/-- Big-endian 32-bit word from (up to) four bytes. -/
def toWord (l : Bytes) : Nat := l.foldl (fun acc b => acc * 256 + b) 0

/-- Big-endian bytes of a 32-bit word. -/
def wordBytes (w : Nat) : Bytes :=
  [(w >>> 24) % 256, (w >>> 16) % 256, (w >>> 8) % 256, w % 256]

/-- Append the next message-schedule word. -/
def scheduleStep (ws : List Nat) : List Nat :=
  let n := ws.length
  ws ++ [add32 (add32 (smallSigma1 (ws.getD (n - 2) 0)) (ws.getD (n - 7) 0))
              (add32 (smallSigma0 (ws.getD (n - 15) 0)) (ws.getD (n - 16) 0))]

/-- Extend 16 words to the 64-word message schedule. -/
def schedule (ws : List Nat) : List Nat := Nat.iterate scheduleStep 48 ws

/-- One SHA-256 round on the 8-word working state. -/
def shaRound (k w : Nat) (s : List Nat) : List Nat :=
  match s with
  | [a, b, c, d, e, f, g, h] =>
    let t1 := add32 h (add32 (bigSigma1 e) (add32 (chFn e f g) (add32 k w)))
    let t2 := add32 (bigSigma0 a) (majFn a b c)
    [add32 t1 t2, a, b, c, add32 d t1, e, f, g]
  | _ => s

/-- Compress one 64-byte block into the running hash. -/
def shaCompress (h : List Nat) (block : Bytes) : List Nat :=
  let ws := schedule ((chunksOf 4 block).map toWord)
  let s := (shaK.zip ws).foldl (fun s kw => shaRound kw.1 kw.2 s) h
  List.zipWith add32 h s

/-- Eight big-endian bytes of the 64-bit value `n`. -/
def beBytes8 (n : Nat) : Bytes :=
  [(n >>> 56) % 256, (n >>> 48) % 256, (n >>> 40) % 256, (n >>> 32) % 256,
   (n >>> 24) % 256, (n >>> 16) % 256, (n >>> 8) % 256, n % 256]

/-- SHA-256 message padding: 0x80, zeros to 56 mod 64, 64-bit bit length. -/
def shaPad (m : Bytes) : Bytes :=
  let l := m.length
  m ++ 0x80 :: List.replicate ((64 - (l + 9) % 64) % 64) 0 ++ beBytes8 (8 * l)

/-- SHA-256 digest of a byte string. -/
def sha256 (m : Bytes) : Bytes :=
  (((chunksOf 64 (shaPad m)).foldl shaCompress shaH0).map wordBytes).flatten

/-- SHA-256 digest as a lower-case hex string. -/
def sha256hex (m : Bytes) : String :=
  String.mk (hexEnc (sha256 m))

/-- Code points of a string; agrees with the UTF-8 bytes the code hashes for
the ASCII-only content used throughout. -/
def strBytes (s : String) : List Nat := s.data.map Char.toNat

/-- The source's `crypto_utils.calculateHash`: SHA-256 hex digest of string content. -/
def calculateHash (content : String) : String := sha256hex (strBytes content)

theorem sha256_empty_vector :
    calculateHash "" = "e3b0c44298fc1c149afbf4c8996fb92427ae41e4649b934ca495991b7852b855" := by
  rfl

theorem sha256_abc_vector :
    calculateHash "abc" = "ba7816bf8f01cfea414140de5dae2223b00361a396177a9cb410ff61f20015ad" := by
  rfl

/-! ## AES-256-CBC (node `crypto.createCipheriv('aes-256-cbc', key, iv)`)

The block permutation itself is a library primitive; it enters as a function
parameter.  The mode of operation — PKCS#7 padding, 16-byte chunking, CBC
chaining — is implemented concretely. -/

/-- Bytewise XOR of two byte strings (truncating to the shorter). -/
def xorB (a b : Bytes) : Bytes := List.zipWith (fun x y => x ^^^ y) a b

/-- PKCS#7 padding to 16-byte blocks, as node CBC applies by default. -/
def pkcs7pad (m : Bytes) : Bytes :=
  let p := 16 - m.length % 16
  m ++ List.replicate p p

/-- PKCS#7 unpadding; `none` models the OpenSSL bad-decrypt error. -/
def pkcs7unpad (m : Bytes) : Option Bytes :=
  match m.getLast? with
  | none => none
  | some p =>
    if 1 ≤ p ∧ p ≤ 16 ∧ p ≤ m.length ∧ (m.drop (m.length - p)).all (fun b => b = p)
    then some (m.take (m.length - p)) else none

/-- CBC chaining for encryption over a block permutation `E`. -/
def cbcEnc (E : Bytes → Bytes) (prev : Bytes) : List Bytes → List Bytes
  | [] => []
  | b :: bs => E (xorB prev b) :: cbcEnc E (E (xorB prev b)) bs

/-- CBC chaining for decryption over the inverse permutation `D`. -/
def cbcDec (D : Bytes → Bytes) (prev : Bytes) : List Bytes → List Bytes
  | [] => []
  | c :: cs => xorB prev (D c) :: cbcDec D c cs

/-- Encryption as `cipher.update(m)` + `cipher.final()`: the full CBC ciphertext. -/
def cbcEncryptBytes (E : Bytes → Bytes) (iv m : Bytes) : Bytes :=
  (cbcEnc E iv (chunksOf 16 (pkcs7pad m))).flatten

/-- Decryption as `decipher.update(c)` + `decipher.final()`: the recovered plaintext. -/
def cbcDecryptBytes (D : Bytes → Bytes) (iv c : Bytes) : Option Bytes :=
  pkcs7unpad (cbcDec D iv (chunksOf 16 c)).flatten

theorem xorB_length (a b : Bytes) : (xorB a b).length = min a.length b.length := by
  simp [xorB]

theorem xorB_xorB (a b : Bytes) (h : a.length = b.length) : xorB a (xorB a b) = b := by
  induction a generalizing b with
  | nil =>
    cases b
    · rfl
    · simp at h
  | cons x a ih =>
    cases b with
    | nil => simp at h
    | cons y b =>
      simp only [List.length_cons, Nat.succ_inj] at h
      simp only [xorB, List.zipWith_cons_cons]
      rw [show List.zipWith (fun x y => x ^^^ y) a (List.zipWith (fun x y => x ^^^ y) a b)
            = xorB a (xorB a b) from rfl, ih b h]
      have : x ^^^ (x ^^^ y) = y := by
        rw [← Nat.xor_assoc, Nat.xor_self, Nat.zero_xor]
      rw [this]

theorem pkcs7unpad_pkcs7pad (m : Bytes) : pkcs7unpad (pkcs7pad m) = some m := by
  have hmod : m.length % 16 < 16 := Nat.mod_lt _ (by omega)
  set p := 16 - m.length % 16 with hp
  have hp1 : 1 ≤ p := by omega
  have hp16 : p ≤ 16 := by omega
  have hrep : (List.replicate p p) ≠ [] := by
    intro h
    have := congrArg List.length h
    simp at this
    omega
  have hrepLast : (List.replicate p p).getLast? = some p := by
    obtain ⟨q, hq⟩ : ∃ q, p = q + 1 := ⟨p - 1, by omega⟩
    rw [hq, List.replicate_succ']
    simp
  have hlast : (m ++ List.replicate p p).getLast? = some p := by
    rw [List.getLast?_append]
    simp [hrepLast]
  have hlen : (m ++ List.replicate p p).length = m.length + p := by simp
  have hsub : m.length + p - p = m.length := by omega
  have hdrop : (m ++ List.replicate p p).drop m.length = List.replicate p p :=
    List.drop_left m _
  have htake : (m ++ List.replicate p p).take m.length = m := List.take_left m _
  simp only [pkcs7pad]
  rw [show (16 - m.length % 16) = p from rfl]
  simp only [pkcs7unpad, hlast, hlen, hsub, hdrop, htake]
  rw [if_pos]
  refine ⟨hp1, hp16, by omega, ?_⟩
  simp [List.all_eq_true, List.mem_replicate]

theorem cbcDec_cbcEnc (E D : Bytes → Bytes) (hED : ∀ b, b.length = 16 → D (E b) = b)
    (hlenE : ∀ b, b.length = 16 → (E b).length = 16) :
    ∀ (bs : List Bytes) (prev : Bytes), prev.length = 16 → (∀ b ∈ bs, b.length = 16) →
      cbcDec D prev (cbcEnc E prev bs) = bs := by
  intro bs
  induction bs with
  | nil => intro prev _ _; rfl
  | cons b bs ih =>
    intro prev hprev hlen
    have hb : b.length = 16 := hlen b (by simp)
    have hbs : ∀ x ∈ bs, x.length = 16 := fun x hx => hlen x (by simp [hx])
    have hxlen : (xorB prev b).length = 16 := by
      rw [xorB_length, hprev, hb]
      simp
    simp only [cbcEnc, cbcDec, List.cons.injEq]
    refine ⟨?_, ?_⟩
    · rw [hED _ hxlen, xorB_xorB prev b (by omega)]
    · exact ih (E (xorB prev b)) (hlenE _ hxlen) hbs

theorem cbcEnc_blocks_length (E : Bytes → Bytes)
    (hlenE : ∀ b, b.length = 16 → (E b).length = 16) :
    ∀ (bs : List Bytes) (prev : Bytes), prev.length = 16 → (∀ b ∈ bs, b.length = 16) →
      ∀ c ∈ cbcEnc E prev bs, c.length = 16 := by
  intro bs
  induction bs with
  | nil => intro prev _ _ c hc; simp [cbcEnc] at hc
  | cons b bs ih =>
    intro prev hprev hlen c hc
    have hb : b.length = 16 := hlen b (by simp)
    have hbs : ∀ x ∈ bs, x.length = 16 := fun x hx => hlen x (by simp [hx])
    have hxlen : (xorB prev b).length = 16 := by
      rw [xorB_length, hprev, hb]
      simp
    simp only [cbcEnc, List.mem_cons] at hc
    rcases hc with hc | hc
    · subst hc
      exact hlenE _ hxlen
    · exact ih (E (xorB prev b)) (hlenE _ hxlen) hbs c hc

theorem pkcs7pad_length_dvd (m : Bytes) : 16 ∣ (pkcs7pad m).length := by
  have h := Nat.div_add_mod m.length 16
  have hmod : m.length % 16 < 16 := Nat.mod_lt _ (by omega)
  refine ⟨m.length / 16 + 1, ?_⟩
  simp only [pkcs7pad, List.length_append, List.length_replicate]
  omega

/-- CBC round trip: decrypting with the inverse block permutation, the same
key and IV recovers any plaintext exactly. -/
theorem cbc_roundtrip (E D : Bytes → Bytes) (hED : ∀ b, b.length = 16 → D (E b) = b)
    (hlenE : ∀ b, b.length = 16 → (E b).length = 16) (iv m : Bytes)
    (hiv : iv.length = 16) :
    cbcDecryptBytes D iv (cbcEncryptBytes E iv m) = some m := by
  have hdvd := pkcs7pad_length_dvd m
  have hblocks : ∀ b ∈ chunksOf 16 (pkcs7pad m), b.length = 16 :=
    chunksOf_length_mem 16 (by omega) _ hdvd
  have hencblocks : ∀ c ∈ cbcEnc E iv (chunksOf 16 (pkcs7pad m)), c.length = 16 :=
    cbcEnc_blocks_length E hlenE _ iv hiv hblocks
  simp only [cbcEncryptBytes, cbcDecryptBytes]
  rw [chunksOf_flatten_blocks 16 (by omega) _ hencblocks,
    cbcDec_cbcEnc E D hED hlenE _ iv hiv hblocks,
    chunksOf_flatten 16 (by omega) (pkcs7pad m),
    pkcs7unpad_pkcs7pad]

/-! ## AES-256-GCM key wrap (`crypto_utils.protectKey` / `unprotectKey`)

AES-GCM is a library primitive; it enters as an abstract scheme: an
encryption, its inverse, and the authentication tag as a function of key, IV
and ciphertext.  `decipher.final()` throwing on tag mismatch is modelled by
the explicit tag comparison. -/

structure GcmScheme where
  enc : Bytes → Bytes → Bytes → Bytes
  dec : Bytes → Bytes → Bytes → Bytes
  tag : Bytes → Bytes → Bytes → Bytes

/-- Result of `protectKey`: hex ciphertext, hex IV, hex auth tag. -/
structure ProtectedKey where
  encryptedBlob : List Char
  iv : List Char
  authTag : List Char
deriving DecidableEq

/-- The source's `crypto_utils.protectKey`: wrap a data key under the master key. -/
def protectKey (g : GcmScheme) (masterKey wrapIv rawKey : Bytes) : ProtectedKey :=
  let ct := g.enc masterKey wrapIv rawKey
  { encryptedBlob := hexEnc ct
    iv := hexEnc wrapIv
    authTag := hexEnc (g.tag masterKey wrapIv ct) }

/-- The source's `crypto_utils.unprotectKey`: unwrap; `none` is the thrown tag-mismatch
(or malformed-input) error. -/
def unprotectKey (g : GcmScheme) (masterKey : Bytes)
    (encryptedBlobHex ivHex authTagHex : List Char) : Option Bytes :=
  match hexDec encryptedBlobHex, hexDec ivHex, hexDec authTagHex with
  | some ct, some iv, some tg =>
    if g.tag masterKey iv ct = tg then some (g.dec masterKey iv ct) else none
  | _, _, _ => none

/-! ## The `"wrapperIv:ciphertext"` packing used by `storeMeetingKey` -/

/-- The fields of JS `String.prototype.split(':')`. -/
def fieldsColon : List Char → List (List Char)
  | [] => [[]]
  | c :: rest =>
    if c = ':' then [] :: fieldsColon rest
    else
      match fieldsColon rest with
      | [] => [[c]]
      | f :: fs => (c :: f) :: fs

/-- Packing of the wrapped-key blob: backtick-template `keyIv:encryptedBlob`. -/
def packKey (ivHex ctHex : List Char) : List Char := ivHex ++ ':' :: ctHex

/-- Destructuring `const [wrapperIv, encryptedKey] = blob.split(':')`: the first two
fields; `none` when the second is `undefined`. -/
def unpackKey (blob : List Char) : Option (List Char × List Char) :=
  match fieldsColon blob with
  | f0 :: f1 :: _ => some (f0, f1)
  | _ => none

theorem fieldsColon_no_colon (l : List Char) (h : ∀ c ∈ l, c ≠ ':') :
    fieldsColon l = [l] := by
  induction l with
  | nil => rfl
  | cons c rest ih =>
    have hc : c ≠ ':' := h c (by simp)
    have hrest : ∀ x ∈ rest, x ≠ ':' := fun x hx => h x (by simp [hx])
    simp only [fieldsColon, if_neg hc, ih hrest]

theorem fieldsColon_append (l r : List Char) (h : ∀ c ∈ l, c ≠ ':') :
    fieldsColon (l ++ ':' :: r) = l :: fieldsColon r := by
  induction l with
  | nil => simp [fieldsColon]
  | cons c rest ih =>
    have hc : c ≠ ':' := h c (by simp)
    have hrest : ∀ x ∈ rest, x ≠ ':' := fun x hx => h x (by simp [hx])
    have ih2 := ih hrest
    rw [List.cons_append]
    revert ih2
    generalize fieldsColon r = fr
    intro ih2
    unfold fieldsColon
    rw [if_neg hc, ih2]

theorem unpackKey_packKey (a b : Bytes) (ha : ∀ x ∈ a, x < 256) (hb : ∀ x ∈ b, x < 256) :
    unpackKey (packKey (hexEnc a) (hexEnc b)) = some (hexEnc a, hexEnc b) := by
  have hnc : ∀ c ∈ hexEnc a, c ≠ ':' := hexEnc_no_colon a ha
  simp only [unpackKey, packKey, fieldsColon_append _ _ hnc,
    fieldsColon_no_colon (hexEnc b) (hexEnc_no_colon b hb)]

/-! ## Base64 (the transport encoding of the `X-Encrypted-Key` header) -/

/-- Standard base64 alphabet. -/
def b64char (n : Nat) : Char :=
  if n < 26 then Char.ofNat (65 + n)
  else if n < 52 then Char.ofNat (71 + n)
  else if n < 62 then Char.ofNat (n - 4)
  else if n = 62 then '+'
  else '/'

/-- Inverse of the base64 alphabet. -/
def b64val (c : Char) : Option Nat :=
  let t := c.toNat
  if 65 ≤ t ∧ t ≤ 90 then some (t - 65)
  else if 97 ≤ t ∧ t ≤ 122 then some (t - 71)
  else if 48 ≤ t ∧ t ≤ 57 then some (t + 4)
  else if t = 43 then some 62
  else if t = 47 then some 63
  else none

/-- Encoding as node's `Buffer.toString('base64')`. -/
def b64encode : Bytes → List Char
  | [] => []
  | [a] => [b64char (a / 4), b64char (a % 4 * 16), '=', '=']
  | [a, b] => [b64char (a / 4), b64char (a % 4 * 16 + b / 16), b64char (b % 16 * 4), '=']
  | a :: b :: c :: rest =>
    b64char (a / 4) :: b64char (a % 4 * 16 + b / 16) :: b64char (b % 16 * 4 + c / 64) ::
      b64char (c % 64) :: b64encode rest

/-- Base64 decoding (of well-formed encoder output); `none` on malformed
input. -/
def b64decode : List Char → Option Bytes
  | [] => some []
  | c1 :: c2 :: c3 :: c4 :: rest =>
    if rest.isEmpty ∧ c3 = '=' ∧ c4 = '=' then
      match b64val c1, b64val c2 with
      | some v1, some v2 =>
        if v2 % 16 = 0 then some [v1 * 4 + v2 / 16] else none
      | _, _ => none
    else if rest.isEmpty ∧ c4 = '=' then
      match b64val c1, b64val c2, b64val c3 with
      | some v1, some v2, some v3 =>
        if v3 % 4 = 0 then some [v1 * 4 + v2 / 16, v2 % 16 * 16 + v3 / 4] else none
      | _, _, _ => none
    else
      match b64val c1, b64val c2, b64val c3, b64val c4, b64decode rest with
      | some v1, some v2, some v3, some v4, some bs =>
        some ((v1 * 4 + v2 / 16) :: (v2 % 16 * 16 + v3 / 4) :: (v3 % 4 * 64 + v4) :: bs)
      | _, _, _, _, _ => none
  | _ => none

theorem b64val_b64char (n : Nat) (h : n < 64) : b64val (b64char n) = some n := by
  revert n
  decide

theorem b64char_ne_eq (n : Nat) (h : n < 64) : b64char n ≠ '=' := by
  revert n
  decide

theorem b64decode_b64encode (l : Bytes) (hB : ∀ b ∈ l, b < 256) :
    b64decode (b64encode l) = some l := by
  induction l using b64encode.induct with
  | case1 => rfl
  | case2 a =>
    have ha : a < 256 := hB a (by simp)
    have h1 : a / 4 < 64 := by omega
    have h2 : a % 4 * 16 < 64 := by omega
    simp only [b64encode]
    unfold b64decode
    rw [if_pos ⟨rfl, rfl, rfl⟩]
    simp only [b64val_b64char _ h1, b64val_b64char _ h2]
    rw [if_pos (by omega), show a / 4 * 4 + a % 4 * 16 / 16 = a from by omega]
  | case3 a b =>
    have ha : a < 256 := hB a (by simp)
    have hb : b < 256 := hB b (by simp)
    have h1 : a / 4 < 64 := by omega
    have h2 : a % 4 * 16 + b / 16 < 64 := by omega
    have h3 : b % 16 * 4 < 64 := by omega
    have hne3 : b64char (b % 16 * 4) ≠ '=' := b64char_ne_eq _ h3
    have e1 : a / 4 * 4 + (a % 4 * 16 + b / 16) / 16 = a := by omega
    have e2 : (a % 4 * 16 + b / 16) % 16 * 16 + b % 16 * 4 / 4 = b := by omega
    simp only [b64encode]
    unfold b64decode
    rw [if_neg (fun h => hne3 h.2.1), if_pos ⟨rfl, rfl⟩]
    simp only [b64val_b64char _ h1, b64val_b64char _ h2, b64val_b64char _ h3]
    rw [if_pos (by omega), e1, e2]
  | case4 a b c rest ih =>
    have ha : a < 256 := hB a (by simp)
    have hb : b < 256 := hB b (by simp)
    have hc : c < 256 := hB c (by simp)
    have hrest : ∀ x ∈ rest, x < 256 := fun x hx => hB x (by simp [hx])
    have h1 : a / 4 < 64 := by omega
    have h2 : a % 4 * 16 + b / 16 < 64 := by omega
    have h3 : b % 16 * 4 + c / 64 < 64 := by omega
    have h4 : c % 64 < 64 := by omega
    have hne4 : b64char (c % 64) ≠ '=' := b64char_ne_eq _ h4
    have hdec := ih hrest
    have e1 : a / 4 * 4 + (a % 4 * 16 + b / 16) / 16 = a := by omega
    have e2 : (a % 4 * 16 + b / 16) % 16 * 16 + (b % 16 * 4 + c / 64) / 4 = b := by omega
    have e3 : (b % 16 * 4 + c / 64) % 4 * 64 + c % 64 = c := by omega
    simp only [b64encode]
    unfold b64decode
    rw [if_neg (fun h => hne4 h.2.2), if_neg (fun h => hne4 h.2)]
    simp only [b64val_b64char _ h1, b64val_b64char _ h2, b64val_b64char _ h3,
      b64val_b64char _ h4, hdec]
    rw [e1, e2, e3]

/-! ## Generic association lists (JS object fields; the vault directory) -/

/-- JS-object field update: overwrite in place, else append. -/
def setAssoc (ps : List (String × α)) (k : String) (v : α) : List (String × α) :=
  if ps.any (fun p => decide (p.1 = k)) then
    ps.map (fun p => if p.1 = k then (k, v) else p)
  else ps ++ [(k, v)]

/-- JS-object field read. -/
def lookupAssoc (ps : List (String × α)) (k : String) : Option α :=
  (ps.find? (fun p => decide (p.1 = k))).map Prod.snd

theorem lookupAssoc_map_overwrite_ne (ps : List (String × α)) (k k2 : String) (v : α)
    (hne : k2 ≠ k) :
    lookupAssoc (ps.map (fun p => if p.1 = k then (k, v) else p)) k2 = lookupAssoc ps k2 := by
  induction ps with
  | nil => rfl
  | cons p ps ih =>
    simp only [lookupAssoc, List.map_cons, List.find?_cons] at ih ⊢
    by_cases hp : p.1 = k
    · rw [if_pos hp]
      have h1 : decide ((k, v).1 = k2) = false := by
        simp only [decide_eq_false_iff_not]
        exact fun h => hne h.symm
      have h2 : decide (p.1 = k2) = false := by
        simp only [decide_eq_false_iff_not]
        rw [hp]
        exact fun h => hne h.symm
      rw [h1, h2]
      exact ih
    · rw [if_neg hp]
      by_cases hq : p.1 = k2
      · rw [decide_eq_true hq]
      · rw [decide_eq_false hq]
        exact ih

theorem lookupAssoc_setAssoc_ne (ps : List (String × α)) (k k2 : String) (v : α)
    (hne : k2 ≠ k) : lookupAssoc (setAssoc ps k v) k2 = lookupAssoc ps k2 := by
  simp only [setAssoc]
  split
  · exact lookupAssoc_map_overwrite_ne ps k k2 v hne
  · simp only [lookupAssoc, List.find?_append]
    have h1 : List.find? (fun p => decide (p.1 = k2)) [(k, v)] = none := by
      simp only [List.find?_cons, List.find?_nil]
      rw [decide_eq_false (fun h => hne h.symm)]
    rw [h1]
    simp

theorem lookupAssoc_setAssoc_self (ps : List (String × α)) (k : String) (v : α) :
    lookupAssoc (setAssoc ps k v) k = some v := by
  simp only [setAssoc]
  split
  · rename_i hany
    induction ps with
    | nil => simp at hany
    | cons p ps ih =>
      simp only [lookupAssoc, List.map_cons, List.find?_cons] at ih ⊢
      by_cases hp : p.1 = k
      · rw [if_pos hp, decide_eq_true (show ((k, v) : String × α).1 = k from rfl)]
        rfl
      · rw [if_neg hp, decide_eq_false hp]
        simp only [List.any_cons, decide_eq_false hp, Bool.false_or] at hany
        exact ih hany
  · rename_i hany
    simp only [lookupAssoc, List.find?_append]
    have h1 : List.find? (fun p => decide (p.1 = k)) ps = none := by
      rw [List.find?_eq_none]
      intro p hp
      simp only [decide_eq_true_eq]
      intro hk
      exact hany (List.any_eq_true.mpr ⟨p, hp, by simp [hk]⟩)
    rw [h1]
    simp [List.find?_cons]

/-! ## Metadata store records (database.js schema) -/

/-- A row of `meetings` (with the migrated `active_version` column). -/
structure Meeting where
  id : String
  user_id : String
  bot_id : String
  status : String
  created_at : Nat
  process_state : String
  current_timestamp : Nat
  file_paths : List (String × String)
  duration_seconds : Nat
  active_version : Nat
deriving DecidableEq

/-- A row of `meeting_keys`. -/
structure KeyRow where
  meeting_id : String
  encrypted_key_blob : List Char
  iv : List Char
  auth_tag : List Char
deriving DecidableEq

/-- A row of `transcript_revisions`. -/
structure Revision where
  id : Nat
  meeting_id : String
  version : Nat
  content_hash : String
  file_path : String
  edited_at : Nat
  type : String
deriving DecidableEq

/-- The whole store; row lists are in rowid (insertion) order. -/
structure Db where
  meetings : List Meeting
  meeting_keys : List KeyRow
  transcript_revisions : List Revision
  next_revision_id : Nat
deriving DecidableEq

/-- The store lookup `getMeeting`. -/
def getMeeting (db : Db) (mid : String) : Option Meeting :=
  db.meetings.find? (fun m => decide (m.id = mid))

/-- The source's `updateProcessState`: partial update; `none` / `0` model the omitted or
falsy `file_paths` / `duration` arguments the code skips. -/
def updateProcessState (db : Db) (mid state : String)
    (filePaths : Option (List (String × String))) (duration : Nat) (now : Nat) : Db :=
  { db with
    meetings := db.meetings.map (fun m =>
      if m.id = mid then
        { m with
          process_state := state
          file_paths := filePaths.getD m.file_paths
          duration_seconds := if duration = 0 then m.duration_seconds else duration
          current_timestamp := now }
      else m) }

/-- The source's `storeMeetingKey`: wrap `rawKey`, pack `wrapperIv:ciphertext` (both hex),
store the file IV hex in the `iv` column; `INSERT OR REPLACE`. -/
def storeMeetingKey (g : GcmScheme) (masterKey : Bytes) (db : Db) (mid : String)
    (rawKey fileIv wrapIv : Bytes) : Db :=
  let pk := protectKey g masterKey wrapIv rawKey
  let packedKey := packKey pk.iv pk.encryptedBlob
  let row : KeyRow :=
    { meeting_id := mid, encrypted_key_blob := packedKey
      iv := hexEnc fileIv, auth_tag := pk.authTag }
  { db with
    meeting_keys := (db.meeting_keys.filter (fun r => decide (r.meeting_id ≠ mid))) ++ [row] }

/-- Outcome of `getMeetingKey`. -/
inductive KeyResult
  | missing
  | unwrapError
  | ok (key fileIv : Bytes)
deriving DecidableEq

/-- The source's `getMeetingKey`: unpack the blob at the colon, hex-decode, unwrap.  Every
thrown error surfaces as the rejected `"Failed to unwrap key"`.  (Malformed
hex is modelled as an error; the column always holds encoder output in the
states our theorems touch.) -/
def getMeetingKey (g : GcmScheme) (masterKey : Bytes) (db : Db) (mid : String) : KeyResult :=
  match db.meeting_keys.find? (fun r => decide (r.meeting_id = mid)) with
  | none => .missing
  | some row =>
    match unpackKey row.encrypted_key_blob with
    | none => .unwrapError
    | some (wrapperIvHex, encryptedKeyHex) =>
      match hexDec row.iv with
      | none => .unwrapError
      | some fileIv =>
        match unprotectKey g masterKey encryptedKeyHex wrapperIvHex row.auth_tag with
        | none => .unwrapError
        | some rawKey => .ok rawKey fileIv

/-- The source's `addRevision` (and the raw INSERT in `processMeeting`): append a row. -/
def addRevision (db : Db) (mid : String) (version : Nat) (hash path type' : String)
    (now : Nat) : Db :=
  { db with
    transcript_revisions := db.transcript_revisions ++
      [{ id := db.next_revision_id, meeting_id := mid, version := version
         content_hash := hash, file_path := path, edited_at := now, type := type' }]
    next_revision_id := db.next_revision_id + 1 }

/-- The source's `getLatestVersion`: `MAX(version)` over one `(meeting, type)`; `0` when
there is none (SQL `NULL`, which the caller treats as `0` via `null + 1`). -/
def getLatestVersion (db : Db) (mid type' : String) : Nat :=
  ((db.transcript_revisions.filter
      (fun r => decide (r.meeting_id = mid ∧ r.type = type'))).map
    (fun r => r.version)).foldl max 0

/-- The source's `getRevisions` restricted to one meeting and kind (row order). -/
def revisionsOf (db : Db) (mid type' : String) : List Revision :=
  db.transcript_revisions.filter (fun r => decide (r.meeting_id = mid ∧ r.type = type'))

/-- The rows `checkoutToVersion` reads: one `(meeting, version)`, both kinds. -/
def revisionsAtVersion (db : Db) (mid : String) (version : Nat) : List Revision :=
  db.transcript_revisions.filter (fun r => decide (r.meeting_id = mid ∧ r.version = version))

/-- The source's `deleteMeeting`: cascading delete of key row, revisions, meeting row. -/
def deleteMeeting (db : Db) (mid : String) : Db :=
  { db with
    meeting_keys := db.meeting_keys.filter (fun r => decide (r.meeting_id ≠ mid))
    transcript_revisions := db.transcript_revisions.filter (fun r => decide (r.meeting_id ≠ mid))
    meetings := db.meetings.filter (fun m => decide (m.id ≠ mid)) }

/-- Outcome of `checkoutToVersion`. -/
inductive CheckoutResult
  | versionNotFound
  | ok (db : Db) (newPaths : List (String × String))
deriving DecidableEq

/-- One step of the `rows.forEach` in `checkoutToVersion`. -/
def checkoutStep (ps : List (String × String)) (r : Revision) : List (String × String) :=
  if r.type = "transcript" then setAssoc ps "transcript" r.file_path
  else if r.type = "summary" then setAssoc ps "summary" r.file_path
  else ps

/-- The `newPaths` object `checkoutToVersion` builds: the current
`file_paths` (clone preserving audio and the rest), each head-kind entry
overwritten by the revision rows at `version` in row order. -/
def checkoutNewPaths (db : Db) (mid : String) (version : Nat) : List (String × String) :=
  (revisionsAtVersion db mid version).foldl checkoutStep
    (match getMeeting db mid with
     | some m => m.file_paths
     | none => [])

/-- The source's `checkoutToVersion`: set each head pointer named by a revision row at
`version`, keep the other entries, set `active_version`. -/
def checkoutToVersion (db : Db) (mid : String) (version : Nat) : CheckoutResult :=
  if (revisionsAtVersion db mid version).isEmpty then .versionNotFound
  else
    .ok
      { db with
        meetings := db.meetings.map (fun m =>
          if m.id = mid then
            { m with active_version := version
                     file_paths := checkoutNewPaths db mid version }
          else m) }
      (checkoutNewPaths db mid version)

/-! ## Processor output shapes and `JSON.stringify` (transcribe_local / nlp_local) -/

/-- One transcript segment (JSON keys `start`, `end`, `text`, `speaker`);
the code produces whole-number times in the modelled inputs. -/
structure Segment where
  start : Nat
  stop : Nat
  text : String
  speaker : String
deriving DecidableEq

/-- Normalized transcriber output: `{ text, segments }`. -/
structure Transcript where
  text : String
  segments : List Segment
deriving DecidableEq

/-- Normalized summarizer output: `{ summary, actions }`. -/
structure Summary where
  summary : String
  actions : List String
deriving DecidableEq

/-- JSON string-character escaping, as `JSON.stringify` performs. -/
def jsonEscapeChar (c : Char) : List Char :=
  if c = '"' then ['\\', '"']
  else if c = '\\' then ['\\', '\\']
  else if c.toNat = 10 then ['\\', 'n']
  else if c.toNat = 13 then ['\\', 'r']
  else if c.toNat = 9 then ['\\', 't']
  else if c.toNat = 8 then ['\\', 'b']
  else if c.toNat = 12 then ['\\', 'f']
  else if c.toNat < 32 then
    ['\\', 'u', '0', '0', hexDigit (c.toNat / 16), hexDigit (c.toNat % 16)]
  else [c]

/-- A JSON string literal. -/
def jsonStr (s : String) : String :=
  String.mk ('"' :: s.data.flatMap jsonEscapeChar ++ ['"'])

/-- Serialization by `JSON.stringify` of a segment, insertion-order keys. -/
def stringifySegment (s : Segment) : String :=
  "\x7b\"start\":" ++ toString s.start ++ ",\"end\":" ++ toString s.stop ++
    ",\"text\":" ++ jsonStr s.text ++ ",\"speaker\":" ++ jsonStr s.speaker ++ "\x7d"

/-- Serialization `JSON.stringify(transcriptJson)`. -/
def stringifyTranscript (t : Transcript) : String :=
  "\x7b\"text\":" ++ jsonStr t.text ++ ",\"segments\":[" ++
    String.intercalate "," (t.segments.map stringifySegment) ++ "]\x7d"

/-- Serialization `JSON.stringify(summaryJson)`. -/
def stringifySummary (s : Summary) : String :=
  "\x7b\"summary\":" ++ jsonStr s.summary ++ ",\"actions\":[" ++
    String.intercalate "," (s.actions.map jsonStr) ++ "]\x7d"

/-! ## Pipeline orchestrator (pipeline_manager.js)

`World` packages the metadata store and the storage vault (path → file
bytes).  The AES-256-CBC block permutation is a parameter `E` (with inverse
`D`); at-rest files hold `cbcEncryptBytes (E key) iv plaintext`. -/

/-- Vault paths used by the pipeline. -/
def audioPath (mid : String) : String := "storage_vault/audio/" ++ mid ++ ".enc"

def transcriptHeadPath (mid : String) : String :=
  "storage_vault/data/" ++ mid ++ "_transcript.enc"

def summaryHeadPath (mid : String) : String :=
  "storage_vault/data/" ++ mid ++ "_summary.enc"

/-- The per-revision snapshot path the specification requires
(`data/<id>_<kind>_v<N>.enc`). -/
def specSnapshotPath (mid kind : String) (version : Nat) : String :=
  "storage_vault/data/" ++ mid ++ "_" ++ kind ++ "_v" ++ toString version ++ ".enc"

/-- The metadata store plus the on-disk vault. -/
structure World where
  db : Db
  vault : List (String × Bytes)
deriving DecidableEq

/-- The source's `processMeeting`, from the point the transcriber and summarizer outputs
exist (steps 3-6 and completion in the source; the audio staging that
precedes them does not change the store).  The revision INSERT uses
`JSON.stringify(transcriptJson)` as hash input, literal version `1` and the
literal path `'internal_storage'`, exactly as the source does. -/
def processMeeting (E : Bytes → Bytes → Bytes) (g : GcmScheme) (masterKey : Bytes)
    (w : World) (mid : String) (transcriptJson : Transcript) (summaryJson : Summary)
    (durationSeconds : Nat) (now : Nat) : World :=
  let db0 := updateProcessState w.db mid "transcribing" none 0 now
  match getMeetingKey g masterKey db0 mid with
  | .ok key iv =>
    let transcriptText := stringifyTranscript transcriptJson
    let transcriptHash := calculateHash transcriptText
    let db1 := addRevision db0 mid 1 transcriptHash "internal_storage" "transcript" now
    let vault1 := setAssoc w.vault (transcriptHeadPath mid)
      (cbcEncryptBytes (E key) iv (strBytes transcriptText))
    let vault2 := setAssoc vault1 (summaryHeadPath mid)
      (cbcEncryptBytes (E key) iv (strBytes (stringifySummary summaryJson)))
    let db2 := updateProcessState db1 mid "completed"
      (some [("audio", audioPath mid), ("transcript", transcriptHeadPath mid),
             ("summary", summaryHeadPath mid)]) durationSeconds now
    { db := db2, vault := vault2 }
  | _ => { w with db := updateProcessState db0 mid "failed" none 0 now }

/-- Outcome of `saveTranscriptRevision`. -/
inductive SaveResult
  | keyError
  | ok (w : World) (version : Nat) (hash : String)
deriving DecidableEq

/-- The source's `saveTranscriptRevision(meetingId, newText)`: hash `newText`, bump the
transcript version, overwrite the head transcript file, append one history
row with path `'internal_storage'`.  (The route passes `segments` but the
function signature ignores them, and no summary work happens here.) -/
def saveTranscriptRevision (E : Bytes → Bytes → Bytes) (g : GcmScheme) (masterKey : Bytes)
    (w : World) (mid : String) (newText : String) (now : Nat) : SaveResult :=
  match getMeetingKey g masterKey w.db mid with
  | .missing => .keyError
  | .unwrapError => .keyError
  | .ok key iv =>
    let hash := calculateHash newText
    let currentVer := getLatestVersion w.db mid "transcript"
    let newVer := currentVer + 1
    let vault1 := setAssoc w.vault (transcriptHeadPath mid)
      (cbcEncryptBytes (E key) iv (strBytes newText))
    let db1 := addRevision w.db mid newVer hash "internal_storage" "transcript" now
    .ok { db := db1, vault := vault1 } newVer hash

/-- Outcome of `getArtifactStream`. -/
inductive ArtifactResult
  | keyError
  | invalidType
  | fileNotFound
  | ok (key iv ciphertext : Bytes)
deriving DecidableEq

/-- The source's `getArtifactStream`: recover the meeting key, pick the head file for the
requested type, return the lazily-decrypting stream (carried here as the key,
IV and ciphertext it will decrypt). -/
def getArtifactStream (g : GcmScheme) (masterKey : Bytes) (w : World)
    (mid type' : String) : ArtifactResult :=
  match getMeetingKey g masterKey w.db mid with
  | .missing => .keyError
  | .unwrapError => .keyError
  | .ok key iv =>
    if type' = "audio" ∨ type' = "transcript" ∨ type' = "summary" then
      let filePath :=
        if type' = "audio" then audioPath mid
        else if type' = "transcript" then transcriptHeadPath mid
        else summaryHeadPath mid
      match lookupAssoc w.vault filePath with
      | none => .fileNotFound
      | some ct => .ok key iv ct
    else .invalidType

/-! ## Session envelope (encryption.js `createEncryptionSetup`) -/

/-- The value `createEncryptionSetup` returns: the base64 header content and
the session cipher parameters.  RSA-OAEP-SHA256 under the client public key
is the function parameter `rsaEncPk`; the fresh randomness (`aesKey`, `iv`)
is passed explicitly. -/
structure EncSetup where
  encryptedKeyHeader : List Char
  cipherKey : Bytes
  cipherIv : Bytes
deriving DecidableEq

/-- The source's `createEncryptionSetup`: `keyData = aesKey ‖ iv` (48 bytes), RSA-OAEP
encrypt, base64: the `X-Encrypted-Key` header; plus the AES-256-CBC session
cipher. -/
def createEncryptionSetup (rsaEncPk : Bytes → Bytes) (aesKey iv : Bytes) : EncSetup :=
  { encryptedKeyHeader := b64encode (rsaEncPk (aesKey ++ iv))
    cipherKey := aesKey
    cipherIv := iv }

/-! ## API surface (server.js) -/

/-- An HTTP response: a JSON error/info body, or a streamed body under the
envelope headers.  A `none` stream body is an upstream decryption failure
after the headers went out. -/
inductive Resp
  | error (status : Nat) (msg : String)
  | stream (encryptedKeyHeader : List Char) (contentType : String) (body : Option Bytes)
deriving DecidableEq

/-- The source's `secureDeliver(req, res, type)`: the generic handler behind
`/api/audio/:id`, `/api/data/:id/transcript` and `/api/data/:id/summary`.
It authenticates (the middleware yields `user`), but — as in the source —
never loads the meeting row or compares `user` with the owner. -/
def secureDeliver (E D : Bytes → Bytes → Bytes) (g : GcmScheme) (masterKey : Bytes)
    (rsaEncPk : Bytes → Bytes) (sessionKey sessionIv : Bytes)
    (w : World) (user mid type' : String) (pubKeyPresent : Bool) : Resp :=
  if ¬ pubKeyPresent then .error 400 "Missing X-Public-Key header"
  else
    match getArtifactStream g masterKey w mid type' with
    | .keyError => .error 500 "Failed to retrieve data"
    | .invalidType => .error 500 "Failed to retrieve data"
    | .fileNotFound => .error 404 "Artifact not found"
    | .ok key iv ct =>
      let setup := createEncryptionSetup rsaEncPk sessionKey sessionIv
      .stream setup.encryptedKeyHeader
        (if type' = "audio" then "audio/mpeg" else "application/json")
        ((cbcDecryptBytes (D key) iv ct).map
          (cbcEncryptBytes (E setup.cipherKey) setup.cipherIv))

/-- The client side of the envelope, from the specification: base64-decode
`X-Encrypted-Key`, RSA-OAEP decrypt with the private key to `aes_key ‖ iv`,
split at 32 bytes, AES-256-CBC decrypt the body. -/
def clientDecryptEnvelope (rsaDecSk : Bytes → Bytes) (D : Bytes → Bytes → Bytes)
    (header : List Char) (body : Bytes) : Option Bytes :=
  match b64decode header with
  | none => none
  | some rsaCt =>
    let keyData := rsaDecSk rsaCt
    cbcDecryptBytes (D (keyData.take 32)) (keyData.drop 32) body

/-- Normalized bot-provider status (recall.js `getBotStatus`). -/
structure BotStatus where
  status : String
  audio_ready : Bool
  audio_url : Option String
  raw_status : String
deriving DecidableEq

/-- The list `const terminalStates = ['done', 'fatal', 'error', 'payment_required']`. -/
def terminalStates : List String := ["done", "fatal", "error", "payment_required"]

/-- The `/api/status/:meeting_id` response bodies. -/
inductive StatusResp
  | notFound
  | unauthorized
  | stateJson (status raw_status process_state : String) (audio_ready : Bool)
      (artifacts : List (String × String))
  | discarded
  | processed
  | botJson (b : BotStatus)
deriving DecidableEq

/-- The `/api/status/:meeting_id` handler body, from the meeting-record
snapshot `snap` it read at the top.  Every check below uses `snap` (the
source closes over `record`); effects apply to the store passed in.  Returns
the response, the store after the handler, and whether the download/ingest
background task was dispatched (which the source does only after the
synchronous write of `'downloading'`). -/
def statusHandlerCore (snap : Option Meeting) (db : Db) (bot : BotStatus)
    (user mid : String) (now : Nat) : StatusResp × Db × Bool :=
  match snap with
  | none => (.notFound, db, false)
  | some record =>
    if record.user_id ≠ user then (.unauthorized, db, false)
    else if record.process_state ≠ "" ∧ record.process_state ≠ "initializing" then
      let uiStatus :=
        if record.process_state = "completed" then "complete" else record.process_state
      let isAudioReady :=
        record.process_state = "completed" ∨ record.process_state = "downloaded" ∨
          record.process_state = "transcribing"
      (.stateJson uiStatus record.process_state record.process_state
        (decide isAudioReady) record.file_paths, db, false)
    else if bot.raw_status ∈ terminalStates ∧ ¬ bot.audio_ready then
      (.discarded, deleteMeeting db mid, false)
    else if bot.audio_ready ∧ record.process_state = "initializing" then
      (.processed, updateProcessState db mid "downloading" none 0 now, true)
    else (.botJson bot, db, false)

/-- Route `/api/status/:meeting_id`: read the record, then run the body. -/
def statusHandler (db : Db) (bot : BotStatus) (user mid : String) (now : Nat) :
    StatusResp × Db × Bool :=
  statusHandlerCore (getMeeting db mid) db bot user mid now

/-- Two concurrent `/status` polls whose `getMeeting` reads both complete
before either handler body runs — the precise situation in which both
observe `process_state = 'initializing'` — followed by the two bodies in
sequence.  Returns the final store and the number of download tasks
dispatched. -/
def twoPollsAfterBothReads (db : Db) (bot : BotStatus) (user mid : String)
    (now1 now2 : Nat) : Db × Nat :=
  let snap1 := getMeeting db mid
  let snap2 := getMeeting db mid
  let r1 := statusHandlerCore snap1 db bot user mid now1
  let r2 := statusHandlerCore snap2 r1.2.1 bot user mid now2
  (r2.2.1, (if r1.2.2 then 1 else 0) + (if r2.2.2 then 1 else 0))

/-! ## `/api/revert/:meeting_id` (server.js) and the missing pipeline export -/

/-- Exports of pipeline_manager.js (`module.exports`) name exactly `ingestRecording`,
`processMeeting`, `resumeProcessing`, `getArtifactStream` and
`saveTranscriptRevision`; `revertToRevision` is neither exported nor defined
anywhere in the repository, so the destructured import in server.js is
`undefined`. -/
def pipelineExportsRevertToRevision : Option (World → String → Nat → Nat → SaveResult) :=
  none

/-- The `/api/revert/:meeting_id` response bodies. -/
inductive RevertResp
  | missingRevisionId
  | notFound
  | unauthorized
  | serverError (msg : String)
  | reverted (new_version : Nat)
deriving DecidableEq

/-- Route `/api/revert/:meeting_id`: validate, check ownership, then call
`revertToRevision` — which, being `undefined`, throws
`TypeError: revertToRevision is not a function`, caught as a 500. -/
def revertHandler (w : World) (user mid : String) (revision_id : Option Nat)
    (now : Nat) : RevertResp × World :=
  match revision_id with
  | none => (.missingRevisionId, w)
  | some rid =>
    match getMeeting w.db mid with
    | none => (.notFound, w)
    | some record =>
      if record.user_id ≠ user then (.unauthorized, w)
      else
        match pipelineExportsRevertToRevision with
        | none => (.serverError "revertToRevision is not a function", w)
        | some f =>
          match f w mid rid now with
          | .keyError => (.serverError "Meeting Key not found", w)
          | .ok w2 v _ => (.reverted v, w2)

/-! ## Helper lemmas about filtered stores -/

theorem find?_filter_ne_eq_none (l : List α) (f : α → String) (mid : String) :
    (l.filter (fun r => decide (f r ≠ mid))).find? (fun r => decide (f r = mid)) = none := by
  rw [List.find?_eq_none]
  intro r hr
  have hmem := List.of_mem_filter hr
  simp only [decide_eq_true_eq] at hmem ⊢
  exact hmem

theorem filter_eq_of_filter_ne (l : List α) (f : α → String) (mid : String) :
    (l.filter (fun r => decide (f r ≠ mid))).filter (fun r => decide (f r = mid)) = [] := by
  rw [List.filter_eq_nil_iff]
  intro r hr
  have hmem := List.of_mem_filter hr
  simp only [decide_eq_true_eq] at hmem ⊢
  exact hmem

theorem getMeeting_map_update (db : Db) (mid : String) (u : Meeting → Meeting)
    (hid : ∀ m, (u m).id = m.id) :
    getMeeting
      { db with meetings := db.meetings.map (fun m => if m.id = mid then u m else m) } mid
      = (getMeeting db mid).map u := by
  simp only [getMeeting]
  induction db.meetings with
  | nil => rfl
  | cons m ms ih =>
    simp only [List.map_cons, List.find?_cons]
    by_cases hm : m.id = mid
    · rw [if_pos hm]
      rw [decide_eq_true (show (u m).id = mid from (hid m).trans hm),
        decide_eq_true hm]
      rfl
    · rw [if_neg hm, decide_eq_false hm]
      exact ih

/-! ## Concrete instantiations for the closed evaluations

A degenerate but law-abiding block permutation and RSA pair (identity), and
a GCM scheme whose tag is a perfect MAC (length-prefixed `iv ‖ ct`). -/

/-- Identity block permutation: a valid instantiation of the cipher laws. -/
def idBlockCipher : Bytes → Bytes → Bytes := fun _ b => b

/-- GCM instantiation whose tag determines `(iv, ct)` outright. -/
def idGcm : GcmScheme :=
  { enc := fun _ _ m => m
    dec := fun _ _ c => c
    tag := fun _ iv ct => (iv.length % 256) :: iv ++ ct }

theorem idGcm_tag_inj (mk iv ct iv2 ct2 : Bytes) (hlt : iv.length + ct.length < 256)
    (h : idGcm.tag mk iv2 ct2 = idGcm.tag mk iv ct) : iv2 = iv ∧ ct2 = ct := by
  simp only [idGcm, List.cons_append, List.cons.injEq] at h
  obtain ⟨hlen, happ⟩ := h
  have hlensum : iv2.length + ct2.length = iv.length + ct.length := by
    have := congrArg List.length happ
    simp only [List.length_append] at this
    exact this
  have hivlen : iv2.length = iv.length := by omega
  obtain ⟨h1, h2⟩ := List.append_inj happ hivlen
  exact ⟨h1, h2⟩

/-- Shared concrete demo data. -/
def demoMasterKey : Bytes := List.replicate 32 1

def demoKey : Bytes := List.replicate 32 2

def demoFileIv : Bytes := List.replicate 16 3

def demoWrapIv : Bytes := List.replicate 12 4

def demoSessKey : Bytes := List.replicate 32 5

def demoSessIv : Bytes := List.replicate 16 6

/-- The meeting row used by the closed evaluations: owned by `alice`. -/
def demoMeeting : Meeting :=
  { id := "m1", user_id := "alice", bot_id := "m1", status := "processing"
    created_at := 100, process_state := "completed", current_timestamp := 100
    file_paths := [("audio", audioPath "m1"), ("transcript", transcriptHeadPath "m1"),
                   ("summary", summaryHeadPath "m1")]
    duration_seconds := 60, active_version := 0 }

/-- Store with `m1` and no key yet. -/
def demoBaseDb : Db :=
  { meetings := [demoMeeting], meeting_keys := [], transcript_revisions := []
    next_revision_id := 1 }

/-- Store with `m1` and its wrapped key. -/
def demoDb : Db :=
  storeMeetingKey idGcm demoMasterKey demoBaseDb "m1" demoKey demoFileIv demoWrapIv

/-- The plaintext of the stored transcript artifact. -/
def demoClearText : String := "secret transcript"

/-- World for the delivery evaluations: the head transcript file holds the
encrypted artifact. -/
def demoWorld : World :=
  { db := demoDb
    vault := [(transcriptHeadPath "m1",
               cbcEncryptBytes (idBlockCipher demoKey) demoFileIv (strBytes demoClearText))] }

def demoHdr : List Char := b64encode (demoSessKey ++ demoSessIv)

def demoBody : Bytes :=
  cbcEncryptBytes (idBlockCipher demoSessKey) demoSessIv (strBytes demoClearText)

/-- C3: against the claim, the secure-delivery handler performs no ownership
check: meeting `m1` is owned by `alice`, yet an authenticated request by
`bob` receives the full envelope stream — whose client-side decryption is
exactly the stored artifact plaintext — instead of a 403. -/
theorem secureDeliver_serves_non_owner :
    (getMeeting demoWorld.db "m1").map Meeting.user_id = some "alice"
    ∧ secureDeliver idBlockCipher idBlockCipher idGcm demoMasterKey id demoSessKey demoSessIv
        demoWorld "bob" "m1" "transcript" true
      = .stream demoHdr "application/json" (some demoBody)
    ∧ clientDecryptEnvelope id idBlockCipher demoHdr demoBody = some (strBytes demoClearText) := by
  refine ⟨by decide, by decide, by decide⟩

/-- The transcriber/summarizer outputs used in the processing evaluations. -/
def demoTranscript : Transcript := { text := "hi", segments := [] }

def demoSummary : Summary := { summary := "short", actions := ["a1"] }

/-- C4: the revision row `processMeeting` inserts carries the SHA-256 of
`JSON.stringify(transcriptJson)` — not of `transcriptJson.text` — and no
summary revision is created at all. -/
theorem processMeeting_hashes_full_json :
    (stringifyTranscript demoTranscript = "\x7b\"text\":\"hi\",\"segments\":[]\x7d")
    ∧ ((processMeeting idBlockCipher idGcm demoMasterKey demoWorld "m1" demoTranscript
          demoSummary 0 5).db.transcript_revisions.map Revision.content_hash
        = [calculateHash (stringifyTranscript demoTranscript)])
    ∧ calculateHash (stringifyTranscript demoTranscript) ≠ calculateHash "hi"
    ∧ ((processMeeting idBlockCipher idGcm demoMasterKey demoWorld "m1" demoTranscript
          demoSummary 0 5).db.transcript_revisions.map Revision.type = ["transcript"])
    ∧ revisionsOf (processMeeting idBlockCipher idGcm demoMasterKey demoWorld "m1"
        demoTranscript demoSummary 0 5).db "m1" "summary" = [] := by
  refine ⟨by decide, by decide, by decide, by decide, by decide⟩

/-- A store state holding one transcript revision (version 1) of `m1`. -/
def demoRevision : Revision :=
  { id := 1, meeting_id := "m1", version := 1, content_hash := calculateHash "v1 text"
    file_path := "internal_storage", edited_at := 5, type := "transcript" }

def demoWorldRev : World :=
  { demoWorld with
    db := { demoWorld.db with transcript_revisions := [demoRevision], next_revision_id := 2 } }

/-- C6: `/api/revert` by the owner against an existing revision responds 500
(`revertToRevision is not a function`) and leaves the store untouched — it
can never create the claimed version `N+1`. -/
theorem revert_endpoint_always_500 :
    revertHandler demoWorldRev "alice" "m1" (some 1) 9
      = (.serverError "revertToRevision is not a function", demoWorldRev)
    ∧ (getMeeting demoWorldRev.db "m1").map Meeting.user_id = some "alice"
    ∧ demoRevision ∈ demoWorldRev.db.transcript_revisions := by
  refine ⟨by decide, by decide, by decide⟩

/-- C7: both insertion sites record the literal `'internal_storage'` as
`file_path`, never the vault snapshot path the specification requires. -/
theorem revision_paths_are_internal_storage :
    ((processMeeting idBlockCipher idGcm demoMasterKey demoWorld "m1" demoTranscript
        demoSummary 0 5).db.transcript_revisions.map Revision.file_path
      = ["internal_storage"])
    ∧ (match saveTranscriptRevision idBlockCipher idGcm demoMasterKey demoWorldRev "m1"
          "edited" 9 with
       | .ok w3 _ _ => w3.db.transcript_revisions.map Revision.file_path
       | _ => []) = ["internal_storage", "internal_storage"]
    ∧ "internal_storage" ≠ specSnapshotPath "m1" "transcript" 1
    ∧ specSnapshotPath "m1" "transcript" 1 = "storage_vault/data/m1_transcript_v1.enc" := by
  refine ⟨by decide, by decide, by decide, by decide⟩

/-- A meeting still in `initializing`, and a provider status with audio
ready: the premise of the concurrency claim. -/
def c8Meeting : Meeting := { demoMeeting with process_state := "initializing" }

def c8Db : Db := { demoDb with meetings := [c8Meeting] }

def c8Bot : BotStatus :=
  { status := "processed", audio_ready := true, audio_url := some "https://u"
    raw_status := "done" }

/-- C8: two `/status` polls that both observed `process_state =
'initializing'` (both reads before either write — the only way both can
observe it) each pass the stale-snapshot precondition and each dispatch a
download task: two dispatches, not one.  A poll that re-reads after the
first poll's synchronous `'downloading'` write does not dispatch. -/
theorem concurrent_polls_double_dispatch :
    (twoPollsAfterBothReads c8Db c8Bot "alice" "m1" 1 2).2 = 2
    ∧ (statusHandler c8Db c8Bot "alice" "m1" 1).2.2 = true
    ∧ (statusHandler ((statusHandler c8Db c8Bot "alice" "m1" 1).2.1) c8Bot "alice" "m1" 2).2.2
        = false := by
  refine ⟨by decide, by decide, by decide⟩

/-- C1: the envelope round trip.  For a valid RSA-OAEP-SHA256 key pair
(`rsaEncPk`/`rsaDecSk` inverse on payloads up to the 190-byte OAEP bound of
a 2048-bit key) and any artifact plaintext `B` that a secure-delivery
endpoint serves: the `X-Encrypted-Key` header decodes and RSA-decrypts to
exactly the 48-byte `aes_key ‖ iv`, and AES-256-CBC-decrypting the body
with that key and IV recovers `B` exactly. -/
theorem envelope_roundtrip
    (E D : Bytes → Bytes → Bytes) (g : GcmScheme) (masterKey : Bytes)
    (rsaEncPk rsaDecSk : Bytes → Bytes)
    (hrsa : ∀ m : Bytes, m.length ≤ 190 → rsaDecSk (rsaEncPk m) = m)
    (hrsaB : ∀ m : Bytes, (∀ b ∈ m, b < 256) → ∀ b ∈ rsaEncPk m, b < 256)
    (sessionKey sessionIv : Bytes)
    (hsk : sessionKey.length = 32) (hsiv : sessionIv.length = 16)
    (hskB : ∀ b ∈ sessionKey, b < 256) (hsivB : ∀ b ∈ sessionIv, b < 256)
    (hED : ∀ k b, b.length = 16 → D k (E k b) = b)
    (hlenE : ∀ k b, b.length = 16 → (E k b).length = 16)
    (w : World) (user mid type' : String) (key iv ct B : Bytes)
    (hart : getArtifactStream g masterKey w mid type' = .ok key iv ct)
    (hclear : cbcDecryptBytes (D key) iv ct = some B) :
    secureDeliver E D g masterKey rsaEncPk sessionKey sessionIv w user mid type' true
      = .stream (b64encode (rsaEncPk (sessionKey ++ sessionIv)))
          (if type' = "audio" then "audio/mpeg" else "application/json")
          (some (cbcEncryptBytes (E sessionKey) sessionIv B))
    ∧ rsaDecSk (rsaEncPk (sessionKey ++ sessionIv)) = sessionKey ++ sessionIv
    ∧ (sessionKey ++ sessionIv).length = 48
    ∧ clientDecryptEnvelope rsaDecSk D (b64encode (rsaEncPk (sessionKey ++ sessionIv)))
        (cbcEncryptBytes (E sessionKey) sessionIv B) = some B := by
  have hlen48 : (sessionKey ++ sessionIv).length = 48 := by
    rw [List.length_append, hsk, hsiv]
  have hkdB : ∀ b ∈ sessionKey ++ sessionIv, b < 256 := by
    intro b hb
    rcases List.mem_append.mp hb with h | h
    · exact hskB b h
    · exact hsivB b h
  have hdecRsa : rsaDecSk (rsaEncPk (sessionKey ++ sessionIv)) = sessionKey ++ sessionIv :=
    hrsa _ (by omega)
  refine ⟨?_, hdecRsa, hlen48, ?_⟩
  · simp only [secureDeliver, not_true_eq_false, if_false, hart, createEncryptionSetup,
      hclear, Option.map_some']
  · simp only [clientDecryptEnvelope, b64decode_b64encode _ (hrsaB _ hkdB), hdecRsa]
    have htake : (sessionKey ++ sessionIv).take 32 = sessionKey := by
      rw [← hsk]
      exact List.take_left sessionKey sessionIv
    have hdrop : (sessionKey ++ sessionIv).drop 32 = sessionIv := by
      rw [← hsk]
      exact List.drop_left sessionKey sessionIv
    rw [htake, hdrop]
    exact cbc_roundtrip (E sessionKey) (D sessionKey) (hED sessionKey) (hlenE sessionKey)
      sessionIv B hsiv

/-- Concrete instance of the envelope round trip (identity RSA pair and
block permutation, the demo world's stored transcript). -/
theorem envelope_roundtrip_witness :
    secureDeliver idBlockCipher idBlockCipher idGcm demoMasterKey id demoSessKey demoSessIv
        demoWorld "alice" "m1" "transcript" true
      = .stream (b64encode (id (demoSessKey ++ demoSessIv)))
          (if ("transcript" : String) = "audio" then "audio/mpeg" else "application/json")
          (some (cbcEncryptBytes (idBlockCipher demoSessKey) demoSessIv
            (strBytes demoClearText)))
    ∧ id (id (demoSessKey ++ demoSessIv)) = demoSessKey ++ demoSessIv
    ∧ (demoSessKey ++ demoSessIv).length = 48
    ∧ clientDecryptEnvelope id idBlockCipher (b64encode (id (demoSessKey ++ demoSessIv)))
        (cbcEncryptBytes (idBlockCipher demoSessKey) demoSessIv (strBytes demoClearText))
        = some (strBytes demoClearText) :=
  envelope_roundtrip idBlockCipher idBlockCipher idGcm demoMasterKey id id
    (fun _ _ => rfl) (fun _ hm => hm) demoSessKey demoSessIv (by decide) (by decide)
    (by decide) (by decide) (fun _ _ _ => rfl) (fun _ _ h => h)
    demoWorld "alice" "m1" "transcript" demoKey demoFileIv
    (cbcEncryptBytes (idBlockCipher demoKey) demoFileIv (strBytes demoClearText))
    (strBytes demoClearText) (by decide) (by decide)

/-- A `meeting_keys` row with the given wrapper IV, wrapped-key ciphertext,
auth tag and file IV, packed exactly as `storeMeetingKey` packs them. -/
def keyRowFor (mid : String) (wrapIv ct tg fileIv : Bytes) : KeyRow :=
  { meeting_id := mid, encrypted_key_blob := packKey (hexEnc wrapIv) (hexEnc ct)
    iv := hexEnc fileIv, auth_tag := hexEnc tg }

theorem storeMeetingKey_row (g : GcmScheme) (masterKey : Bytes) (db : Db) (mid : String)
    (k v wrapIv : Bytes) :
    storeMeetingKey g masterKey db mid k v wrapIv
      = { db with
          meeting_keys :=
            (db.meeting_keys.filter (fun r => decide (r.meeting_id ≠ mid))) ++
              [keyRowFor mid wrapIv (g.enc masterKey wrapIv k)
                (g.tag masterKey wrapIv (g.enc masterKey wrapIv k)) v] } := rfl

theorem getMeetingKey_row (g : GcmScheme) (masterKey : Bytes) (db : Db) (mid : String)
    (wrapIv ct tg fileIv : Bytes)
    (hivB : ∀ b ∈ wrapIv, b < 256) (hctB : ∀ b ∈ ct, b < 256)
    (htgB : ∀ b ∈ tg, b < 256) (hvB : ∀ b ∈ fileIv, b < 256)
    (hrow : db.meeting_keys.find? (fun r => decide (r.meeting_id = mid))
      = some (keyRowFor mid wrapIv ct tg fileIv)) :
    getMeetingKey g masterKey db mid
      = if g.tag masterKey wrapIv ct = tg
        then .ok (g.dec masterKey wrapIv ct) fileIv
        else .unwrapError := by
  simp only [getMeetingKey, hrow, keyRowFor, unpackKey_packKey wrapIv ct hivB hctB,
    hexDec_hexEnc fileIv hvB]
  simp only [unprotectKey, hexDec_hexEnc ct hctB, hexDec_hexEnc wrapIv hivB,
    hexDec_hexEnc tg htgB]
  by_cases htag : g.tag masterKey wrapIv ct = tg
  · rw [if_pos htag, if_pos htag]
  · rw [if_neg htag, if_neg htag]

/-- C2: key-wrap round trip and integrity.  After `store_meeting_key(id, k,
v)`, `get_meeting_key(id)` returns exactly `(k, v)`; and a stored row whose
wrapper IV, wrapped-key ciphertext (the two components of the packed blob) or
auth tag differs from the stored one — with the other components intact, as
under any single-bit corruption — makes `get_meeting_key(id)` fail with the
`KeyUnwrapError` surfaced as `'Failed to unwrap key'` (`KeyResult
.unwrapError`), returning no key.  The GCM hypotheses: decryption inverts
encryption, and the tag is an ideal MAC (under the secret master key, a tag
collision pins down IV and ciphertext). -/
theorem meeting_key_wrap_integrity
    (g : GcmScheme) (masterKey : Bytes) (db : Db) (mid : String) (k v wrapIv : Bytes)
    (hvB : ∀ b ∈ v, b < 256) (hivB : ∀ b ∈ wrapIv, b < 256)
    (hctB : ∀ b ∈ g.enc masterKey wrapIv k, b < 256)
    (htgB : ∀ b ∈ g.tag masterKey wrapIv (g.enc masterKey wrapIv k), b < 256)
    (hdec : g.dec masterKey wrapIv (g.enc masterKey wrapIv k) = k)
    (hinj : ∀ iv2 ct2 : Bytes,
      g.tag masterKey iv2 ct2 = g.tag masterKey wrapIv (g.enc masterKey wrapIv k) →
      iv2 = wrapIv ∧ ct2 = g.enc masterKey wrapIv k) :
    getMeetingKey g masterKey (storeMeetingKey g masterKey db mid k v wrapIv) mid = .ok k v
    ∧ ∀ iv2 ct2 tg2 : Bytes,
        (∀ b ∈ iv2, b < 256) → (∀ b ∈ ct2, b < 256) → (∀ b ∈ tg2, b < 256) →
        ((iv2, ct2) ≠ (wrapIv, g.enc masterKey wrapIv k)
            ∧ tg2 = g.tag masterKey wrapIv (g.enc masterKey wrapIv k)
          ∨ (iv2, ct2) = (wrapIv, g.enc masterKey wrapIv k)
            ∧ tg2 ≠ g.tag masterKey wrapIv (g.enc masterKey wrapIv k)) →
        getMeetingKey g masterKey
          { db with meeting_keys := [keyRowFor mid iv2 ct2 tg2 v] } mid = .unwrapError := by
  constructor
  · rw [storeMeetingKey_row]
    rw [getMeetingKey_row g masterKey _ mid wrapIv (g.enc masterKey wrapIv k)
      (g.tag masterKey wrapIv (g.enc masterKey wrapIv k)) v hivB hctB htgB hvB ?_]
    · rw [if_pos rfl, hdec]
    · simp only [List.find?_append, find?_filter_ne_eq_none _ KeyRow.meeting_id mid]
      simp only [List.find?_cons, decide_eq_true (show (keyRowFor mid wrapIv
        (g.enc masterKey wrapIv k) (g.tag masterKey wrapIv (g.enc masterKey wrapIv k))
        v).meeting_id = mid from rfl)]
      rfl
  · intro iv2 ct2 tg2 hiv2 hct2 htg2 hcase
    rw [getMeetingKey_row g masterKey _ mid iv2 ct2 tg2 v hiv2 hct2 htg2 hvB ?_]
    · rw [if_neg]
      rcases hcase with ⟨hne, htg⟩ | ⟨heq, hne⟩
      · intro h
        rw [htg] at h
        obtain ⟨h1, h2⟩ := hinj iv2 ct2 h
        exact hne (by rw [h1, h2])
      · intro h
        have h1 : iv2 = wrapIv := congrArg Prod.fst heq
        have h2 : ct2 = g.enc masterKey wrapIv k := congrArg Prod.snd heq
        rw [h1, h2] at h
        exact hne h.symm
    · simp only [List.find?_cons, decide_eq_true
        (show (keyRowFor mid iv2 ct2 tg2 v).meeting_id = mid from rfl)]

/-- A corrupted auth tag for the demo row: the stored tag with its first
byte changed. -/
def demoBadTag : Bytes := 13 :: demoWrapIv ++ demoKey

/-- Concrete instance of the key-wrap round trip and integrity theorem: the
demo key stored under the ideal-MAC GCM instantiation, and the failure on a
one-byte tag corruption. -/
theorem meeting_key_wrap_integrity_witness :
    getMeetingKey idGcm demoMasterKey
        (storeMeetingKey idGcm demoMasterKey demoBaseDb "m1" demoKey demoFileIv demoWrapIv)
        "m1" = .ok demoKey demoFileIv
    ∧ getMeetingKey idGcm demoMasterKey
        { demoBaseDb with
          meeting_keys := [keyRowFor "m1" demoWrapIv demoKey demoBadTag demoFileIv] }
        "m1" = .unwrapError := by
  have h := meeting_key_wrap_integrity idGcm demoMasterKey demoBaseDb "m1"
    demoKey demoFileIv demoWrapIv (by decide) (by decide) (by decide) (by decide) rfl
    (fun iv2 ct2 hh =>
      idGcm_tag_inj demoMasterKey demoWrapIv (idGcm.enc demoMasterKey demoWrapIv demoKey)
        iv2 ct2 (by decide) hh)
  exact ⟨h.1, h.2 demoWrapIv demoKey demoBadTag (by decide) (by decide) (by decide)
    (Or.inr ⟨rfl, by decide⟩)⟩

/-! ## Projections used by closed statements -/

def saveWorldOf : SaveResult → Option World
  | .keyError => none
  | .ok w _ _ => some w

def saveVersionOf : SaveResult → Option Nat
  | .keyError => none
  | .ok _ v _ => some v

def checkoutPathsOf : CheckoutResult → Option (List (String × String))
  | .versionNotFound => none
  | .ok _ np => some np

/-- C5 counterexample: an edit on a meeting whose transcript history is at
version 1 produces transcript version 2 but no summary revision at all — the
latest summary version stays 0, not 2. -/
theorem saveTranscriptRevision_no_summary_cex :
    saveVersionOf (saveTranscriptRevision idBlockCipher idGcm demoMasterKey demoWorldRev
        "m1" "edited text" 9) = some 2
    ∧ (saveWorldOf (saveTranscriptRevision idBlockCipher idGcm demoMasterKey demoWorldRev
        "m1" "edited text" 9)).map (fun w2 => revisionsOf w2.db "m1" "summary") = some []
    ∧ (saveWorldOf (saveTranscriptRevision idBlockCipher idGcm demoMasterKey demoWorldRev
        "m1" "edited text" 9)).map (fun w2 => getLatestVersion w2.db "m1" "summary")
      = some 0
    ∧ (saveWorldOf (saveTranscriptRevision idBlockCipher idGcm demoMasterKey demoWorldRev
        "m1" "edited text" 9)).map (fun w2 => getLatestVersion w2.db "m1" "transcript")
      = some 2 := by
  refine ⟨by decide, by decide, by decide, by decide⟩

theorem revisionsOf_addRevision_ne (db : Db) (mid : String) (ver : Nat)
    (hash path ty ty2 : String) (now : Nat) (h : ty ≠ ty2) :
    revisionsOf (addRevision db mid ver hash path ty now) mid ty2
      = revisionsOf db mid ty2 := by
  simp only [revisionsOf, addRevision, List.filter_append, List.filter_cons, List.filter_nil]
  rw [decide_eq_false (fun hc => h hc.2)]
  simp

theorem getLatestVersion_addRevision_ne (db : Db) (mid : String) (ver : Nat)
    (hash path ty ty2 : String) (now : Nat) (h : ty ≠ ty2) :
    getLatestVersion (addRevision db mid ver hash path ty now) mid ty2
      = getLatestVersion db mid ty2 := by
  simp only [getLatestVersion, addRevision, List.filter_append, List.filter_cons,
    List.filter_nil]
  rw [decide_eq_false (fun hc => h hc.2)]
  simp

/-- C5 amended: a successful `save_transcript_revision` appends exactly one
revision row — a transcript row with version `latest_transcript + 1`, hashed
over the new text — and leaves the summary history (rows and latest version)
untouched; no summary is regenerated and no summary revision is written. -/
theorem saveTranscriptRevision_transcript_only
    (E : Bytes → Bytes → Bytes) (g : GcmScheme) (masterKey : Bytes)
    (w : World) (mid text : String) (now : Nat) (key iv : Bytes)
    (hk : getMeetingKey g masterKey w.db mid = .ok key iv) :
    saveTranscriptRevision E g masterKey w mid text now
      = .ok
          { db := addRevision w.db mid (getLatestVersion w.db mid "transcript" + 1)
              (calculateHash text) "internal_storage" "transcript" now
            vault := setAssoc w.vault (transcriptHeadPath mid)
              (cbcEncryptBytes (E key) iv (strBytes text)) }
          (getLatestVersion w.db mid "transcript" + 1) (calculateHash text)
    ∧ revisionsOf (addRevision w.db mid (getLatestVersion w.db mid "transcript" + 1)
        (calculateHash text) "internal_storage" "transcript" now) mid "summary"
      = revisionsOf w.db mid "summary"
    ∧ getLatestVersion (addRevision w.db mid (getLatestVersion w.db mid "transcript" + 1)
        (calculateHash text) "internal_storage" "transcript" now) mid "summary"
      = getLatestVersion w.db mid "summary" := by
  refine ⟨?_, ?_, ?_⟩
  · simp only [saveTranscriptRevision, hk]
  · exact revisionsOf_addRevision_ne _ _ _ _ _ _ _ _ (by decide)
  · exact getLatestVersion_addRevision_ne _ _ _ _ _ _ _ _ (by decide)

/-- Concrete instance of the amended C5 theorem at the demo store. -/
theorem saveTranscriptRevision_transcript_only_witness :
    saveTranscriptRevision idBlockCipher idGcm demoMasterKey demoWorldRev "m1"
        "edited text" 9
      = .ok
          { db := addRevision demoWorldRev.db "m1"
              (getLatestVersion demoWorldRev.db "m1" "transcript" + 1)
              (calculateHash "edited text") "internal_storage" "transcript" 9
            vault := setAssoc demoWorldRev.vault (transcriptHeadPath "m1")
              (cbcEncryptBytes (idBlockCipher demoKey) demoFileIv
                (strBytes "edited text")) }
          (getLatestVersion demoWorldRev.db "m1" "transcript" + 1)
          (calculateHash "edited text")
    ∧ revisionsOf (addRevision demoWorldRev.db "m1"
        (getLatestVersion demoWorldRev.db "m1" "transcript" + 1)
        (calculateHash "edited text") "internal_storage" "transcript" 9) "m1" "summary"
      = revisionsOf demoWorldRev.db "m1" "summary"
    ∧ getLatestVersion (addRevision demoWorldRev.db "m1"
        (getLatestVersion demoWorldRev.db "m1" "transcript" + 1)
        (calculateHash "edited text") "internal_storage" "transcript" 9) "m1" "summary"
      = getLatestVersion demoWorldRev.db "m1" "summary" :=
  saveTranscriptRevision_transcript_only idBlockCipher idGcm demoMasterKey demoWorldRev
    "m1" "edited text" 9 demoKey demoFileIv (by decide)

/-- C9: a `/status` poll on a meeting still `initializing`, for which the
provider reports a terminal raw status with no audio, responds `discarded`
and cascades the delete: afterwards the meeting row, its key record and all
its revision rows are gone, and `get_meeting_key` reports no record. -/
theorem discard_terminal_no_audio
    (db : Db) (bot : BotStatus) (user mid : String) (now : Nat) (m : Meeting)
    (hm : getMeeting db mid = some m) (howner : m.user_id = user)
    (hstate : m.process_state = "initializing")
    (hterm : bot.raw_status ∈ terminalStates) (hnoaudio : bot.audio_ready = false) :
    statusHandler db bot user mid now = (.discarded, deleteMeeting db mid, false)
    ∧ getMeeting (deleteMeeting db mid) mid = none
    ∧ (deleteMeeting db mid).meeting_keys.find? (fun r => decide (r.meeting_id = mid))
        = none
    ∧ (deleteMeeting db mid).transcript_revisions.filter
        (fun r => decide (r.meeting_id = mid)) = []
    ∧ ∀ (g : GcmScheme) (masterKey : Bytes),
        getMeetingKey g masterKey (deleteMeeting db mid) mid = .missing := by
  have hkeys : (deleteMeeting db mid).meeting_keys.find?
      (fun r => decide (r.meeting_id = mid)) = none :=
    find?_filter_ne_eq_none db.meeting_keys KeyRow.meeting_id mid
  refine ⟨?_, ?_, hkeys, ?_, ?_⟩
  · simp only [statusHandler, statusHandlerCore, hm]
    rw [if_neg (fun h => h howner), if_neg (fun h => h.2 hstate), if_pos ?_]
    exact ⟨hterm, by rw [hnoaudio]; exact Bool.false_ne_true⟩
  · exact find?_filter_ne_eq_none db.meetings Meeting.id mid
  · exact filter_eq_of_filter_ne db.transcript_revisions Revision.meeting_id mid
  · intro g masterKey
    simp only [getMeetingKey, hkeys]

/-- A terminal provider status with no audio available. -/
def c9Bot : BotStatus :=
  { status := "processing", audio_ready := false, audio_url := none
    raw_status := "done" }

/-- Concrete instance of the discard theorem at the demo store. -/
theorem discard_terminal_no_audio_witness :
    statusHandler c8Db c9Bot "alice" "m1" 7 = (.discarded, deleteMeeting c8Db "m1", false)
    ∧ getMeeting (deleteMeeting c8Db "m1") "m1" = none
    ∧ (deleteMeeting c8Db "m1").meeting_keys.find? (fun r => decide (r.meeting_id = "m1"))
        = none
    ∧ (deleteMeeting c8Db "m1").transcript_revisions.filter
        (fun r => decide (r.meeting_id = "m1")) = []
    ∧ ∀ (g : GcmScheme) (masterKey : Bytes),
        getMeetingKey g masterKey (deleteMeeting c8Db "m1") "m1" = .missing :=
  discard_terminal_no_audio c8Db c9Bot "alice" "m1" 7 c8Meeting (by decide) rfl rfl
    (by decide) rfl

/-- What the head pointer of kind `ty` becomes after replaying `rows`: the
last row of that kind wins; absent any such row, the initial value stays. -/
def headPathAfter (rows : List Revision) (ty : String) (init : Option String) :
    Option String :=
  rows.foldl (fun acc r => if r.type = ty then some r.file_path else acc) init

theorem lookup_checkoutFold_transcript (rows : List Revision) :
    ∀ ps, lookupAssoc (rows.foldl checkoutStep ps) "transcript"
      = headPathAfter rows "transcript" (lookupAssoc ps "transcript") := by
  induction rows with
  | nil => intro ps; rfl
  | cons r rest ih =>
    intro ps
    simp only [List.foldl_cons, headPathAfter] at ih ⊢
    rw [ih (checkoutStep ps r)]
    congr 1
    simp only [checkoutStep]
    by_cases h1 : r.type = "transcript"
    · rw [if_pos h1, if_pos h1, lookupAssoc_setAssoc_self]
    · rw [if_neg h1, if_neg h1]
      by_cases h2 : r.type = "summary"
      · rw [if_pos h2, lookupAssoc_setAssoc_ne _ _ _ _ (by decide)]
      · rw [if_neg h2]

theorem lookup_checkoutFold_summary (rows : List Revision) :
    ∀ ps, lookupAssoc (rows.foldl checkoutStep ps) "summary"
      = headPathAfter rows "summary" (lookupAssoc ps "summary") := by
  induction rows with
  | nil => intro ps; rfl
  | cons r rest ih =>
    intro ps
    simp only [List.foldl_cons, headPathAfter] at ih ⊢
    rw [ih (checkoutStep ps r)]
    congr 1
    simp only [checkoutStep]
    by_cases h1 : r.type = "transcript"
    · have h2 : r.type ≠ "summary" := by rw [h1]; decide
      rw [if_pos h1, if_neg h2, lookupAssoc_setAssoc_ne _ _ _ _ (by decide)]
    · rw [if_neg h1]
      by_cases h2 : r.type = "summary"
      · rw [if_pos h2, if_pos h2, lookupAssoc_setAssoc_self]
      · rw [if_neg h2, if_neg h2]

theorem lookup_checkoutFold_other (rows : List Revision) :
    ∀ ps (k2 : String), k2 ≠ "transcript" → k2 ≠ "summary" →
      lookupAssoc (rows.foldl checkoutStep ps) k2 = lookupAssoc ps k2 := by
  induction rows with
  | nil => intro ps _ _ _; rfl
  | cons r rest ih =>
    intro ps k2 hk1 hk2
    simp only [List.foldl_cons]
    rw [ih (checkoutStep ps r) k2 hk1 hk2]
    simp only [checkoutStep]
    by_cases h1 : r.type = "transcript"
    · rw [if_pos h1, lookupAssoc_setAssoc_ne _ _ _ _ hk1]
    · rw [if_neg h1]
      by_cases h2 : r.type = "summary"
      · rw [if_pos h2, lookupAssoc_setAssoc_ne _ _ _ _ hk2]
      · rw [if_neg h2]

/-- C10 counterexample: at a version registered only by a transcript
revision — the only kind this code ever registers — `checkout_to_version`
leaves `file_paths.summary` at its old head value, which is not the path of
any revision registered at that version; the claim's unconditional rewrite
of the summary pointer fails. -/
theorem checkoutToVersion_summary_not_rewritten_cex :
    checkoutPathsOf (checkoutToVersion demoWorldRev.db "m1" 1)
      = some (checkoutNewPaths demoWorldRev.db "m1" 1)
    ∧ lookupAssoc (checkoutNewPaths demoWorldRev.db "m1" 1) "summary"
        = some (summaryHeadPath "m1")
    ∧ (revisionsAtVersion demoWorldRev.db "m1" 1).map Revision.file_path
        = ["internal_storage"]
    ∧ (revisionsAtVersion demoWorldRev.db "m1" 1).map Revision.type = ["transcript"]
    ∧ summaryHeadPath "m1" ≠ "internal_storage" := by
  refine ⟨by decide, by decide, by decide, by decide, by decide⟩

/-- C10 amended: when at least one revision row exists at `version`,
`checkout_to_version` sets `active_version` to `version`, rewrites each of
`file_paths.transcript` / `file_paths.summary` for which a revision of that
kind is registered at `version` to that revision's path (last row wins),
keeps the head pointer of a kind with no registered revision — and every
other `file_paths` entry, in particular audio — unchanged, and neither
creates nor modifies nor deletes any revision row or key record. -/
theorem checkoutToVersion_head_pointers
    (db : Db) (mid : String) (version : Nat) (m : Meeting)
    (hm : getMeeting db mid = some m)
    (hne : revisionsAtVersion db mid version ≠ []) :
    checkoutToVersion db mid version
      = .ok
          { db with
            meetings := db.meetings.map (fun mm =>
              if mm.id = mid then
                { mm with active_version := version
                          file_paths := checkoutNewPaths db mid version }
              else mm) }
          (checkoutNewPaths db mid version)
    ∧ getMeeting
        { db with
          meetings := db.meetings.map (fun mm =>
            if mm.id = mid then
              { mm with active_version := version
                        file_paths := checkoutNewPaths db mid version }
            else mm) } mid
      = some { m with active_version := version
                      file_paths := checkoutNewPaths db mid version }
    ∧ lookupAssoc (checkoutNewPaths db mid version) "transcript"
        = headPathAfter (revisionsAtVersion db mid version) "transcript"
            (lookupAssoc m.file_paths "transcript")
    ∧ lookupAssoc (checkoutNewPaths db mid version) "summary"
        = headPathAfter (revisionsAtVersion db mid version) "summary"
            (lookupAssoc m.file_paths "summary")
    ∧ (∀ k2 : String, k2 ≠ "transcript" → k2 ≠ "summary" →
        lookupAssoc (checkoutNewPaths db mid version) k2 = lookupAssoc m.file_paths k2) := by
  have hnp : checkoutNewPaths db mid version
      = (revisionsAtVersion db mid version).foldl checkoutStep m.file_paths := by
    simp only [checkoutNewPaths, hm]
  refine ⟨?_, ?_, ?_, ?_, ?_⟩
  · simp only [checkoutToVersion]
    rw [if_neg (fun h => hne (List.isEmpty_iff.mp h))]
  · rw [getMeeting_map_update db mid
      (fun mm => { mm with active_version := version
                           file_paths := checkoutNewPaths db mid version })
      (fun _ => rfl), hm]
    rfl
  · rw [hnp]
    exact lookup_checkoutFold_transcript _ _
  · rw [hnp]
    exact lookup_checkoutFold_summary _ _
  · intro k2 hk1 hk2
    rw [hnp]
    exact lookup_checkoutFold_other _ _ k2 hk1 hk2

/-- Concrete instance of the checkout theorem at the demo store. -/
theorem checkoutToVersion_head_pointers_witness :
    checkoutToVersion demoWorldRev.db "m1" 1
      = .ok
          { demoWorldRev.db with
            meetings := demoWorldRev.db.meetings.map (fun mm =>
              if mm.id = "m1" then
                { mm with active_version := 1
                          file_paths := checkoutNewPaths demoWorldRev.db "m1" 1 }
              else mm) }
          (checkoutNewPaths demoWorldRev.db "m1" 1)
    ∧ getMeeting
        { demoWorldRev.db with
          meetings := demoWorldRev.db.meetings.map (fun mm =>
            if mm.id = "m1" then
              { mm with active_version := 1
                        file_paths := checkoutNewPaths demoWorldRev.db "m1" 1 }
            else mm) } "m1"
      = some { demoMeeting with active_version := 1
                                file_paths := checkoutNewPaths demoWorldRev.db "m1" 1 }
    ∧ lookupAssoc (checkoutNewPaths demoWorldRev.db "m1" 1) "transcript"
        = headPathAfter (revisionsAtVersion demoWorldRev.db "m1" 1) "transcript"
            (lookupAssoc demoMeeting.file_paths "transcript")
    ∧ lookupAssoc (checkoutNewPaths demoWorldRev.db "m1" 1) "summary"
        = headPathAfter (revisionsAtVersion demoWorldRev.db "m1" 1) "summary"
            (lookupAssoc demoMeeting.file_paths "summary")
    ∧ (∀ k2 : String, k2 ≠ "transcript" → k2 ≠ "summary" →
        lookupAssoc (checkoutNewPaths demoWorldRev.db "m1" 1) k2
          = lookupAssoc demoMeeting.file_paths k2) :=
  checkoutToVersion_head_pointers demoWorldRev.db "m1" 1 demoMeeting (by decide) (by decide)

end Talktrace
